import Mathlib

/-!
Shallow embedding of the Movement Tracker core (MovementTracker component):
session state machine, calibration accumulator, live deviation calculator,
squat phase detector, session statistics finalizer and the bounded debug log.

Numbers: the source uses JS doubles; the claims are about exact arithmetic,
so samples, measurements and the baseline are embedded with ℚ.  The
statistics finalizer needs a square root, so its outputs live in ℝ.
Bluetooth transport, JSON decoding, audio and wall-clock reads are external
collaborators and are not part of the embedded core; the debug log is
modelled as a standalone component (its wall-clock prefix is an input).
-/

/-- Measurement record: baseline-subtracted axes plus a synthetic timestamp
(seconds).  Mirrors the `Measurement` interface of the source. -/
structure Measurement where
  x : ℚ
  y : ℚ
  z : ℚ
  timestamp : ℚ
  deriving DecidableEq, Repr

/-- Raw 3-axis sample as decoded from the sensor payload. -/
structure RawSample where
  x : ℚ
  y : ℚ
  z : ℚ
  deriving DecidableEq, Repr

/-- Calibration baseline, per-axis mean of the calibration samples. -/
structure Calibration where
  x : ℚ
  y : ℚ
  z : ℚ
  deriving DecidableEq, Repr

/-- Squat phase result: `bottomPoint` is the timestamp of the selected
bottom (none when no candidate was selected), `maxDepth` the signed z value
there.  Mirrors the `SquatPhases` interface. -/
structure SquatPhases where
  bottomPoint : Option ℚ
  maxDepth : ℚ
  deriving DecidableEq, Repr

/-- Final session statistics.  The source stores `toFixed(2)` strings; per
the spec rounding happens at presentation time only, so the embedded record
keeps the full-precision numeric values. -/
structure Stats where
  maxDeviation : ℝ
  avgDeviation : ℝ
  duration : ℚ
  samples : ℕ

/-- Session mode, mirroring the `mode` state of the source. -/
inductive Mode where
  | idle
  | connecting
  | calibrating
  | tracking
  deriving DecidableEq, Repr

/-- The constant `REQUIRED_CALIBRATION_SAMPLES` of the source. -/
def REQUIRED_CALIBRATION_SAMPLES : ℕ := 10

/-- The constant `SAMPLE_PERIOD` of the source (50 ms at 20 Hz). -/
def SAMPLE_PERIOD : ℚ := 1 / 20

/-- The mutable component state relevant to the core: mode, baseline,
calibration buffer, timeline, the synthetic sample counter
(`measurementCountRef`), calibration progress, live readout and the
final results.  `startTime`, device handles, raw-payload echo fields and
the debug log are presentation/transport state and are left out. -/
structure TrackerState where
  mode : Mode
  calibration : Calibration
  calibrationSamples : List Measurement
  measurements : List Measurement
  measurementCount : ℕ
  calibrationProgress : ℚ
  currentX : ℚ
  currentY : ℚ
  currentZ : ℚ
  finalStats : Option Stats
  squatPhases : SquatPhases

/-- Initial component state (the `useState` initialisers of the source). -/
def initialState : TrackerState :=
  { mode := .idle
    calibration := ⟨0, 0, 0⟩
    calibrationSamples := []
    measurements := []
    measurementCount := 0
    calibrationProgress := 0
    currentX := 0
    currentY := 0
    currentZ := 0
    finalStats := none
    squatPhases := ⟨none, 0⟩ }

/-- Debug-log entry formatting: the source prepends a wall-clock time-of-day
string and a separator to the message. -/
def formatLogEntry (timeStr msg : String) : String :=
  timeStr ++ " - " ++ msg

/-- The `addDebugMessage` handler: appends the prefixed message and keeps the
last 5 entries (`slice(-5)`; JS `slice(-5)` keeps everything when the list is
shorter, which truncated subtraction reproduces). -/
def addDebugMessage (prev : List String) (timeStr msg : String) : List String :=
  let newMessages := prev ++ [formatLogEntry timeStr msg]
  newMessages.drop (newMessages.length - 5)

/-- Runs `addDebugMessage` over a sequence of (wall-clock prefix, message)
pairs starting from the empty log. -/
def runLog (msgs : List (String × String)) : List String :=
  msgs.foldl (fun log p => addDebugMessage log p.1 p.2) []

/-- Loop body of `detectSquatPhases`: walks the timeline with a window of
`prev`, `curr` and the next element, updating `(bottomPoint, maxDepth)` when
`curr.z` is a strict local minimum of larger magnitude than the running
depth. -/
def squatScan : Measurement → Measurement → List Measurement → SquatPhases → SquatPhases
  | _, _, [], st => st
  | prev, curr, next :: rest, st =>
      let st' : SquatPhases :=
        if curr.z < prev.z ∧ curr.z < next.z ∧ |curr.z| > |st.maxDepth| then
          ⟨some curr.timestamp, curr.z⟩
        else st
      squatScan curr next rest st'

/-- The `detectSquatPhases` function of the source: null (`none`) for fewer
than 3 measurements, otherwise the single left-to-right scan over interior
positions starting from `bottomPoint = null`, `maxDepth = 0`. -/
def detectSquatPhases (data : List Measurement) : Option SquatPhases :=
  if data.length < 3 then none
  else
    match data with
    | p :: c :: rest => some (squatScan p c rest ⟨none, 0⟩)
    | _ => none

/-- A default measurement used only to express out-of-range indexing in the
index-based specification below (all accesses are in range). -/
def mZero : Measurement := ⟨0, 0, 0, 0⟩

/-- Fuel-indexed loop of the index-based phase-detector specification:
processes `n` interior indices starting at `i`. -/
def specGo (data : List Measurement) : ℕ → ℕ → SquatPhases → SquatPhases
  | 0, _, st => st
  | n + 1, i, st =>
      let zi := (data.getD i mZero).z
      let zp := (data.getD (i - 1) mZero).z
      let zn := (data.getD (i + 1) mZero).z
      let st' : SquatPhases :=
        if zi < zp ∧ zi < zn ∧ |zi| > |st.maxDepth| then
          ⟨some (data.getD i mZero).timestamp, zi⟩
        else st
      specGo data n (i + 1) st'

/-- Index-based phase detector written from the spec wording: scan interior
indices i from 1 to length − 2 of the z axis; i is a candidate when
z[i] < z[i−1] and z[i] < z[i+1]; keep the candidate whose magnitude beats the
running `maxDepth` by a strict comparison, recording the signed z value and
the measurement's timestamp. -/
def detectSquatPhasesSpec (data : List Measurement) : Option SquatPhases :=
  if data.length < 3 then none
  else some (specGo data (data.length - 2) 1 ⟨none, 0⟩)

/-- Per-measurement horizontal deviation of `calculateFinalStats`:
sqrt (x² + z²); the y axis is excluded. -/
noncomputable def horizontalDeviation (m : Measurement) : ℝ :=
  Real.sqrt ((m.x : ℝ) ^ 2 + (m.z : ℝ) ^ 2)

/-- The `calculateFinalStats` function: returns early (here: `none`) on an
empty timeline; otherwise folds a running max and running sum of the
horizontal deviation over the measurements, takes duration from the last
measurement's timestamp, and packages the statistics. -/
noncomputable def calculateFinalStats (ms : List Measurement) : Option Stats :=
  if ms.length = 0 then none
  else
    let acc : ℝ × ℝ :=
      ms.foldl
        (fun p m =>
          let h := horizontalDeviation m
          (max p.1 h, p.2 + h))
        (0, 0)
    let duration := (ms.getD (ms.length - 1) mZero).timestamp
    some
      { maxDeviation := acc.1
        avgDeviation := acc.2 / (ms.length : ℝ)
        duration := duration
        samples := ms.length }

/-- The `handleCalibrationData` handler: stamps the sample with the synthetic
elapsed time, increments the shared sample counter, appends to the
calibration buffer and updates the progress bar; when the buffer reaches
`REQUIRED_CALIBRATION_SAMPLES` it sets the baseline to the per-axis mean,
switches to tracking and empties the timeline.  (The wall-clock
`setStartTime` and the debug messages are outside the embedded state.) -/
def handleCalibrationData (data : RawSample) (s : TrackerState) : TrackerState :=
  let elapsedTimeSeconds := (s.measurementCount : ℚ) * SAMPLE_PERIOD
  let count' := s.measurementCount + 1
  let newSamples :=
    s.calibrationSamples ++ [⟨data.x, data.y, data.z, elapsedTimeSeconds⟩]
  let progress := min ((newSamples.length : ℚ) / REQUIRED_CALIBRATION_SAMPLES * 100) 100
  if newSamples.length ≥ REQUIRED_CALIBRATION_SAMPLES then
    let avgX := (newSamples.map Measurement.x).sum / (newSamples.length : ℚ)
    let avgY := (newSamples.map Measurement.y).sum / (newSamples.length : ℚ)
    let avgZ := (newSamples.map Measurement.z).sum / (newSamples.length : ℚ)
    { s with
        measurementCount := count'
        calibrationSamples := newSamples
        calibrationProgress := progress
        calibration := ⟨avgX, avgY, avgZ⟩
        mode := .tracking
        measurements := [] }
  else
    { s with
        measurementCount := count'
        calibrationSamples := newSamples
        calibrationProgress := progress }

/-- The `handleMotionData` handler after JSON decoding succeeded.  The
listener is registered exactly once, in `connectBLE`, so the handler runs
with the closure it had at registration time: `mode` and the sample counter
are read through refs (`modeRef`, `measurementCountRef`) and the buffers are
updated functionally, so they are current, but `calibration` is a plain
closure capture — the handler subtracts the calibration value as of connect
time, passed here as the explicit `cal` parameter, not the state value
written later by the calibration accumulator.  In calibrating mode it
forwards to the calibration accumulator; in tracking mode it subtracts
`cal` per axis, updates the live readout, stamps the measurement with the
synthetic timestamp, increments the counter and appends to the timeline; in
idle or connecting mode the sample is ignored. -/
def handleMotionData (cal : Calibration) (data : RawSample) (s : TrackerState) : TrackerState :=
  match s.mode with
  | .calibrating => handleCalibrationData data s
  | .tracking =>
      let calibratedX := data.x - cal.x
      let calibratedY := data.y - cal.y
      let calibratedZ := data.z - cal.z
      let elapsedTimeSeconds := (s.measurementCount : ℚ) * SAMPLE_PERIOD
      { s with
          currentX := calibratedX
          currentY := calibratedY
          currentZ := calibratedZ
          measurementCount := s.measurementCount + 1
          measurements :=
            s.measurements ++ [⟨calibratedX, calibratedY, calibratedZ, elapsedTimeSeconds⟩] }
  | _ => s

/-- Success path of `connectBLE` with the Bluetooth I/O elided: clears the
calibration buffer and progress, resets the synthetic sample counter
(`resetMeasurementCount`), and ends in calibrating mode. -/
def connectBLESuccess (s : TrackerState) : TrackerState :=
  { s with
      mode := .calibrating
      calibrationSamples := []
      calibrationProgress := 0
      measurementCount := 0 }

/-- The `stopTracking` handler with the transport disconnect and beep elided:
when the timeline is non-empty it runs the statistics finalizer (which itself
is a no-op on an empty timeline) and the phase detector, storing each result
only when one was produced, then returns to idle. -/
noncomputable def stopTracking (s : TrackerState) : TrackerState :=
  if s.measurements.length > 0 then
    let s₁ :=
      match calculateFinalStats s.measurements with
      | none => s
      | some st => { s with finalStats := some st }
    let s₂ :=
      match detectSquatPhases s.measurements with
      | none => s₁
      | some p => { s₁ with squatPhases := p }
    { s₂ with mode := .idle }
  else { s with mode := .idle }

/-- Feeds a list of decoded raw samples through `handleMotionData` in order;
`cal` is the calibration value captured by the listener's closure when it
was registered in `connectBLE`, constant for the whole session. -/
def runSamples (cal : Calibration) (s : TrackerState) (samples : List RawSample) : TrackerState :=
  samples.foldl (fun st d => handleMotionData cal d st) s

/-- Formats one (time prefix, message) pair of a log input sequence. -/
def formatLogPair (p : String × String) : String :=
  formatLogEntry p.1 p.2

lemma addDebugMessage_length (log : List String) (t m : String) :
    (addDebugMessage log t m).length = min (log.length + 1) 5 := by
  simp only [addDebugMessage, List.length_drop, List.length_append, List.length_singleton]
  omega

lemma runLog_aux (msgs : List (String × String)) :
    ∀ log : List String, log.length ≤ 5 →
      msgs.foldl (fun l p => addDebugMessage l p.1 p.2) log
        = (log ++ msgs.map formatLogPair).drop (log.length + msgs.length - 5) := by
  induction msgs with
  | nil =>
      intro log hlog
      simp only [List.foldl_nil, List.map_nil, List.append_nil, List.length_nil, Nat.add_zero]
      rw [show log.length - 5 = 0 by omega, List.drop_zero]
  | cons p rest ih =>
      intro log hlog
      have hstep : addDebugMessage log p.1 p.2
          = (log ++ [formatLogPair p]).drop (log.length + 1 - 5) := by
        simp [addDebugMessage, formatLogPair]
      have hlen : (addDebugMessage log p.1 p.2).length = min (log.length + 1) 5 :=
        addDebugMessage_length log p.1 p.2
      have hk : log.length + 1 - 5 ≤ (log ++ [formatLogPair p]).length := by
        simp only [List.length_append, List.length_singleton]
        omega
      rw [List.foldl_cons, ih (addDebugMessage log p.1 p.2) (by omega), hstep]
      rw [← List.drop_append_of_le_length hk, List.drop_drop]
      have harr : (log ++ [formatLogPair p]) ++ rest.map formatLogPair
          = log ++ (p :: rest).map formatLogPair := by
        simp
      rw [harr]
      congr 1
      have hA : ((log ++ [formatLogPair p]).drop (log.length + 1 - 5)).length
          = min (log.length + 1) 5 := by
        rw [← hstep]; exact hlen
      rw [hA]
      simp only [List.length_cons]
      omega

/-- C9: after appending n messages the diagnostic log holds exactly the
min(n, 5) most recent entries in arrival order (FIFO eviction of the
oldest), each prefixed with its wall-clock time-of-day string; in
particular 8 appended messages leave exactly the 5 most recent. -/
theorem log_keeps_five_most_recent :
    (∀ msgs : List (String × String),
        runLog msgs = (msgs.map formatLogPair).drop (msgs.length - 5)
          ∧ (runLog msgs).length = min msgs.length 5)
      ∧ runLog
          [("00:00:01", "m1"), ("00:00:02", "m2"), ("00:00:03", "m3"),
           ("00:00:04", "m4"), ("00:00:05", "m5"), ("00:00:06", "m6"),
           ("00:00:07", "m7"), ("00:00:08", "m8")]
        = ["00:00:04 - m4", "00:00:05 - m5", "00:00:06 - m6",
           "00:00:07 - m7", "00:00:08 - m8"] := by
  constructor
  · intro msgs
    have hmain : runLog msgs = (msgs.map formatLogPair).drop (msgs.length - 5) := by
      have h := runLog_aux msgs [] (by simp)
      simpa [runLog] using h
    refine ⟨hmain, ?_⟩
    rw [hmain]
    simp only [List.length_drop, List.length_map]
    omega
  · rfl

lemma getD_of_drop (data : List Measurement) (k j : ℕ) :
    data.getD (k + j) mZero = (data.drop k).getD j mZero := by
  rw [List.getD_eq_getElem?_getD, List.getD_eq_getElem?_getD, List.getElem?_drop]

lemma squatScan_specGo (rest : List Measurement) :
    ∀ (p c : Measurement) (st : SquatPhases) (data : List Measurement) (k : ℕ),
      data.drop k = p :: c :: rest →
      squatScan p c rest st = specGo data rest.length (k + 1) st := by
  induction rest with
  | nil =>
      intro p c st data k _
      rfl
  | cons nx rest' ih =>
      intro p c st data k h
      have hp : data.getD k mZero = p := by
        have := getD_of_drop data k 0
        rw [h] at this
        simpa using this
      have hc : data.getD (k + 1) mZero = c := by
        have := getD_of_drop data k 1
        rw [h] at this
        simpa using this
      have hn : data.getD (k + 2) mZero = nx := by
        have := getD_of_drop data k 2
        rw [h] at this
        simpa using this
      have hdrop : data.drop (k + 1) = c :: nx :: rest' := by
        have h1 : (data.drop k).drop 1 = data.drop (k + 1) := List.drop_drop 1 k data
        rw [h] at h1
        simpa using h1.symm
      have hstep : specGo data (rest'.length + 1) (k + 1) st
          = specGo data rest'.length (k + 1 + 1)
              (if c.z < p.z ∧ c.z < nx.z ∧ |c.z| > |st.maxDepth| then
                ⟨some c.timestamp, c.z⟩
              else st) := by
        conv_lhs => rw [specGo]
        simp only [show k + 1 - 1 = k by omega, show k + 1 + 1 = k + 2 from rfl, hp, hc, hn]
      show squatScan c nx rest'
          (if c.z < p.z ∧ c.z < nx.z ∧ |c.z| > |st.maxDepth| then
            ⟨some c.timestamp, c.z⟩
          else st) = specGo data (rest'.length + 1) (k + 1) st
      rw [hstep, ih c nx _ data (k + 1) hdrop]

lemma detectSquatPhases_eq_spec (data : List Measurement) :
    detectSquatPhases data = detectSquatPhasesSpec data := by
  unfold detectSquatPhases detectSquatPhasesSpec
  by_cases h : data.length < 3
  · simp [h]
  · match data, h with
    | p :: c :: rest, h =>
        simp only [if_neg h]
        have hlen : (p :: c :: rest).length - 2 = rest.length := by
          simp
        rw [hlen, squatScan_specGo rest p c ⟨none, 0⟩ (p :: c :: rest) 0 (by simp)]
    | [], h => simp at h
    | [p], h => simp at h

/-- C4: the squat phase detector coincides with the index-based description
(scan interior indices 1..length−2 of the z axis, candidate exactly when
z[i] < z[i−1] and z[i] < z[i+1], keep the candidate of largest magnitude
under a strict comparison against the running depth, returning its signed z
value and timestamp); and on z-values [0, −1, −5, −2, 0] at timestamps
0, 0.05, 0.10, 0.15, 0.20 it returns bottom timestamp 0.10 and depth −5. -/
theorem detectSquatPhases_matches_spec :
    (∀ data : List Measurement, detectSquatPhases data = detectSquatPhasesSpec data)
      ∧ detectSquatPhases
          [⟨0, 0, 0, 0⟩, ⟨0, 0, -1, 1/20⟩, ⟨0, 0, -5, 1/10⟩,
           ⟨0, 0, -2, 3/20⟩, ⟨0, 0, 0, 1/5⟩]
        = some ⟨some (1/10), -5⟩ := by
  refine ⟨detectSquatPhases_eq_spec, ?_⟩
  norm_num [detectSquatPhases, squatScan]

lemma squatScan_invariant (rest : List Measurement) :
    ∀ (p c : Measurement) (st : SquatPhases),
      (st.bottomPoint = none ↔ st.maxDepth = 0) →
      ((squatScan p c rest st).bottomPoint = none
        ↔ (squatScan p c rest st).maxDepth = 0) := by
  induction rest with
  | nil => intro p c st hst; exact hst
  | cons nx rest' ih =>
      intro p c st hst
      show ((squatScan c nx rest' _).bottomPoint = none ↔ _)
      apply ih
      by_cases hcond : c.z < p.z ∧ c.z < nx.z ∧ |c.z| > |st.maxDepth|
      · rw [if_pos hcond]
        have hz : c.z ≠ 0 := by
          have h1 : |c.z| > |st.maxDepth| := hcond.2.2
          have h2 : (0 : ℚ) ≤ |st.maxDepth| := abs_nonneg _
          intro h0
          rw [h0, abs_zero] at h1
          exact absurd (lt_of_le_of_lt h2 h1) (lt_irrefl 0)
        simp [hz]
      · rw [if_neg hcond]
        exact hst

/-- C10: for any timeline of at least 3 measurements the detector's result
has bottomTimestamp none exactly when maxDepth is 0; a timeline whose z
axis is monotone (no strict interior local minimum) yields none and 0, and
a candidate whose z value is exactly 0 is never selected as the bottom. -/
theorem detectSquatPhases_none_iff_zero :
    (∀ (data : List Measurement) (st : SquatPhases),
        3 ≤ data.length → detectSquatPhases data = some st →
        (st.bottomPoint = none ↔ st.maxDepth = 0))
      ∧ detectSquatPhases
          [⟨0, 0, 0, 0⟩, ⟨0, 0, 1, 1/20⟩, ⟨0, 0, 2, 1/10⟩, ⟨0, 0, 3, 3/20⟩]
        = some ⟨none, 0⟩
      ∧ detectSquatPhases [⟨0, 0, 1, 0⟩, ⟨0, 0, 0, 1/20⟩, ⟨0, 0, 1, 1/10⟩]
        = some ⟨none, 0⟩ := by
  refine ⟨?_, ?_, ?_⟩
  · intro data st hlen hdet
    rcases data with _ | ⟨p, _ | ⟨c, rest⟩⟩
    · simp at hlen
    · simp at hlen
    · unfold detectSquatPhases at hdet
      rw [if_neg (by simp only [List.length_cons] at hlen ⊢; omega)] at hdet
      have h := squatScan_invariant rest p c ⟨none, 0⟩ (by simp)
      rw [Option.some_inj.mp hdet] at h
      exact h
  · norm_num [detectSquatPhases, squatScan]
  · norm_num [detectSquatPhases, squatScan]

/-- Concrete instantiation of the C10 iff at the monotone 4-measurement
timeline, discharging its hypotheses. -/
theorem detectSquatPhases_none_iff_zero_witness :
    ((⟨none, 0⟩ : SquatPhases).bottomPoint = none
      ↔ (⟨none, 0⟩ : SquatPhases).maxDepth = 0) :=
  detectSquatPhases_none_iff_zero.1
    [⟨0, 0, 0, 0⟩, ⟨0, 0, 1, 1/20⟩, ⟨0, 0, 2, 1/10⟩, ⟨0, 0, 3, 3/20⟩]
    ⟨none, 0⟩ (by norm_num)
    detectSquatPhases_none_iff_zero.2.1

/-- A tracking state carrying a 2-measurement timeline together with a squat
phase result left over from an earlier session of the same page load. -/
noncomputable def staleState : TrackerState :=
  { initialState with
      mode := .tracking
      measurements := [⟨0, 0, 0, 0⟩, ⟨0, 0, 0, 1/20⟩]
      squatPhases := ⟨some (1/10), -5⟩ }

/-- C7 counterexample: on a timeline of 2 measurements the detector returns
null rather than a result with bottomTimestamp none and maxDepth 0, and a
stop with such a timeline leaves a stale result from an earlier session
exposed instead of resetting it to none/0. -/
theorem detect_short_not_reset :
    staleState.measurements.length < 3
      ∧ detectSquatPhases staleState.measurements ≠ some ⟨none, 0⟩
      ∧ (stopTracking staleState).squatPhases ≠ ⟨none, 0⟩ := by
  have hdet : detectSquatPhases staleState.measurements = none := by
    norm_num [detectSquatPhases, staleState, initialState]
  refine ⟨by norm_num [staleState, initialState], by rw [hdet]; simp, ?_⟩
  have hlen : staleState.measurements.length > 0 := by
    norm_num [staleState, initialState]
  have hsp : (stopTracking staleState).squatPhases = staleState.squatPhases := by
    rcases hcs : calculateFinalStats staleState.measurements with _ | st <;>
      simp only [stopTracking, hlen, if_true, hcs, hdet]
  rw [hsp]
  norm_num [staleState, initialState]

/-- C7 amended: the detector returns no result (null) for a timeline shorter
than 3 measurements, a stop with such a timeline leaves the exposed squat
phase result unchanged, and in a fresh session that exposed value is the
initial bottomTimestamp none with maxDepth 0; none of this is an error. -/
theorem detect_short_keeps_prior :
    (∀ data : List Measurement, data.length < 3 → detectSquatPhases data = none)
      ∧ (∀ s : TrackerState, s.measurements.length < 3 →
          (stopTracking s).squatPhases = s.squatPhases)
      ∧ initialState.squatPhases = ⟨none, 0⟩ := by
  refine ⟨?_, ?_, rfl⟩
  · intro data h
    unfold detectSquatPhases
    rw [if_pos h]
  · intro s h
    by_cases hne : s.measurements.length > 0
    · have hdet : detectSquatPhases s.measurements = none := by
        unfold detectSquatPhases
        rw [if_pos h]
      rcases hcs : calculateFinalStats s.measurements with _ | st <;>
        simp [stopTracking, hne, hcs, hdet]
    · simp [stopTracking, hne]

/-- Concrete instantiation of the C7 amended theorem at a 1-measurement
timeline and at the initial state. -/
theorem detect_short_keeps_prior_witness :
    detectSquatPhases [mZero] = none
      ∧ (stopTracking initialState).squatPhases = initialState.squatPhases :=
  ⟨detect_short_keeps_prior.1 [mZero] (by simp),
   detect_short_keeps_prior.2.1 initialState (by simp [initialState])⟩

/-- C8: the statistics finalizer is a no-op on an empty timeline: it
produces no statistics and a stop with an empty timeline leaves any prior
final statistics unchanged (the mean, the only division, is computed only
on the non-empty branch). -/
theorem finalize_empty_noop :
    calculateFinalStats ([] : List Measurement) = none
      ∧ ∀ s : TrackerState, s.measurements = [] →
          (stopTracking s).finalStats = s.finalStats := by
  refine ⟨by simp [calculateFinalStats], ?_⟩
  intro s h
  simp [stopTracking, h]

/-- Concrete instantiation of the C8 no-op at the initial state. -/
theorem finalize_empty_noop_witness :
    (stopTracking initialState).finalStats = initialState.finalStats :=
  finalize_empty_noop.2 initialState rfl

lemma handleCalibrationData_calibrationSamples (d : RawSample) (s : TrackerState) :
    (handleCalibrationData d s).calibrationSamples
      = s.calibrationSamples
          ++ [⟨d.x, d.y, d.z, (s.measurementCount : ℚ) * SAMPLE_PERIOD⟩] := by
  simp only [handleCalibrationData]
  split <;> rfl

lemma handleCalibrationData_complete (d : RawSample) (s : TrackerState)
    (h : s.calibrationSamples.length + 1 = REQUIRED_CALIBRATION_SAMPLES) :
    (handleCalibrationData d s).mode = .tracking
      ∧ (handleCalibrationData d s).measurements = []
      ∧ (handleCalibrationData d s).calibration
          = (let newSamples :=
              s.calibrationSamples
                ++ [⟨d.x, d.y, d.z, (s.measurementCount : ℚ) * SAMPLE_PERIOD⟩]
             (⟨(newSamples.map Measurement.x).sum / (REQUIRED_CALIBRATION_SAMPLES : ℚ),
               (newSamples.map Measurement.y).sum / (REQUIRED_CALIBRATION_SAMPLES : ℚ),
               (newSamples.map Measurement.z).sum / (REQUIRED_CALIBRATION_SAMPLES : ℚ)⟩
              : Calibration)) := by
  simp only [handleCalibrationData]
  rw [if_pos (by simp only [List.length_append, List.length_singleton]; omega)]
  refine ⟨rfl, rfl, ?_⟩
  have hlen : ((s.calibrationSamples
      ++ [(⟨d.x, d.y, d.z, (s.measurementCount : ℚ) * SAMPLE_PERIOD⟩ : Measurement)]).length : ℚ)
      = (REQUIRED_CALIBRATION_SAMPLES : ℚ) := by
    rw [List.length_append, List.length_singleton]
    exact_mod_cast h
  simp only [hlen]

lemma handleCalibrationData_incomplete (d : RawSample) (s : TrackerState)
    (h : s.calibrationSamples.length + 1 < REQUIRED_CALIBRATION_SAMPLES) :
    (handleCalibrationData d s).mode = s.mode
      ∧ (handleCalibrationData d s).measurements = s.measurements
      ∧ (handleCalibrationData d s).calibration = s.calibration := by
  simp only [handleCalibrationData]
  rw [if_neg (by simp only [List.length_append, List.length_singleton]; omega)]
  exact ⟨rfl, rfl, rfl⟩

lemma runSamples_calibration (samples : List RawSample) :
    ∀ (cal : Calibration) (s : TrackerState), s.mode = .calibrating →
      s.calibrationSamples.length + samples.length = REQUIRED_CALIBRATION_SAMPLES →
      1 ≤ samples.length →
      (runSamples cal s samples).calibration
          = ⟨((s.calibrationSamples.map Measurement.x).sum
                + (samples.map RawSample.x).sum) / (REQUIRED_CALIBRATION_SAMPLES : ℚ),
             ((s.calibrationSamples.map Measurement.y).sum
                + (samples.map RawSample.y).sum) / (REQUIRED_CALIBRATION_SAMPLES : ℚ),
             ((s.calibrationSamples.map Measurement.z).sum
                + (samples.map RawSample.z).sum) / (REQUIRED_CALIBRATION_SAMPLES : ℚ)⟩
        ∧ (runSamples cal s samples).mode = .tracking
        ∧ (runSamples cal s samples).measurements = [] := by
  induction samples with
  | nil => intro cal s _ _ hlen; simp at hlen
  | cons d rest ih =>
      intro cal s hmode hsum _
      have hdisp : handleMotionData cal d s = handleCalibrationData d s := by
        unfold handleMotionData
        rw [hmode]
      have hrun : runSamples cal s (d :: rest)
          = runSamples cal (handleCalibrationData d s) rest := by
        simp only [runSamples, List.foldl_cons, hdisp]
      rcases rest with _ | ⟨d2, rest'⟩
      · have hcompl : s.calibrationSamples.length + 1 = REQUIRED_CALIBRATION_SAMPLES := by
          simp only [List.length_cons, List.length_nil] at hsum
          omega
        obtain ⟨hm, hms, hcal⟩ := handleCalibrationData_complete d s hcompl
        rw [hrun]
        show _ ∧ (handleCalibrationData d s).mode = _ ∧ (handleCalibrationData d s).measurements = _
        refine ⟨?_, hm, hms⟩
        show (handleCalibrationData d s).calibration = _
        rw [hcal]
        simp [Calibration.mk.injEq]
      · have hincompl : s.calibrationSamples.length + 1 < REQUIRED_CALIBRATION_SAMPLES := by
          simp only [List.length_cons] at hsum
          omega
        obtain ⟨hm, _, _⟩ := handleCalibrationData_incomplete d s hincompl
        have hlen' : (handleCalibrationData d s).calibrationSamples.length
            = s.calibrationSamples.length + 1 := by
          rw [handleCalibrationData_calibrationSamples]
          simp
        have hsum' : (handleCalibrationData d s).calibrationSamples.length
            + (d2 :: rest').length = REQUIRED_CALIBRATION_SAMPLES := by
          rw [hlen']
          simp only [List.length_cons] at hsum ⊢
          omega
        obtain ⟨hcal, hmode', hms'⟩ :=
          ih cal (handleCalibrationData d s) (by rw [hm, hmode]) hsum' (by simp)
        rw [hrun]
        refine ⟨?_, hmode', hms'⟩
        rw [hcal, handleCalibrationData_calibrationSamples]
        simp only [List.map_append, List.sum_append, List.map_cons, List.sum_cons,
          List.map_nil, List.sum_nil, Calibration.mk.injEq]
        refine ⟨?_, ?_, ?_⟩ <;> ring_nf

/-- C1: after a fresh session start, ingesting exactly 10 raw samples in
calibrating mode produces a baseline equal to the exact per-axis arithmetic
mean of those 10 samples, whatever calibration value the listener's closure
captured; the baseline is a pure function of the samples, so feeding the
same 10 samples in a fresh session yields an identical one. -/
theorem calibration_mean_deterministic :
    (∀ (cal : Calibration) (s : TrackerState) (samples : List RawSample),
        samples.length = REQUIRED_CALIBRATION_SAMPLES →
        (runSamples cal (connectBLESuccess s) samples).calibration
          = ⟨(samples.map RawSample.x).sum / (REQUIRED_CALIBRATION_SAMPLES : ℚ),
             (samples.map RawSample.y).sum / (REQUIRED_CALIBRATION_SAMPLES : ℚ),
             (samples.map RawSample.z).sum / (REQUIRED_CALIBRATION_SAMPLES : ℚ)⟩)
      ∧ ∀ (cal₁ cal₂ : Calibration) (s₁ s₂ : TrackerState) (samples : List RawSample),
          samples.length = REQUIRED_CALIBRATION_SAMPLES →
          (runSamples cal₁ (connectBLESuccess s₁) samples).calibration
            = (runSamples cal₂ (connectBLESuccess s₂) samples).calibration := by
  have hmain : ∀ (cal : Calibration) (s : TrackerState) (samples : List RawSample),
      samples.length = REQUIRED_CALIBRATION_SAMPLES →
      (runSamples cal (connectBLESuccess s) samples).calibration
        = ⟨(samples.map RawSample.x).sum / (REQUIRED_CALIBRATION_SAMPLES : ℚ),
           (samples.map RawSample.y).sum / (REQUIRED_CALIBRATION_SAMPLES : ℚ),
           (samples.map RawSample.z).sum / (REQUIRED_CALIBRATION_SAMPLES : ℚ)⟩ := by
    intro cal s samples hlen
    have h := (runSamples_calibration samples cal (connectBLESuccess s) rfl
      (by simp [connectBLESuccess, hlen])
      (by rw [hlen]; norm_num [REQUIRED_CALIBRATION_SAMPLES])).1
    simpa [connectBLESuccess] using h
  exact ⟨hmain, fun cal₁ cal₂ s₁ s₂ samples hlen => by
    rw [hmain cal₁ s₁ samples hlen, hmain cal₂ s₂ samples hlen]⟩

/-- Ten distinct raw samples used to instantiate the calibration claims. -/
def tenSamples : List RawSample :=
  [⟨0, 0, 0⟩, ⟨1, 2, 3⟩, ⟨2, 4, 6⟩, ⟨3, 6, 9⟩, ⟨4, 8, 12⟩,
   ⟨5, 10, 15⟩, ⟨6, 12, 18⟩, ⟨7, 14, 21⟩, ⟨8, 16, 24⟩, ⟨9, 18, 27⟩]

/-- Concrete instantiation of the C1 mean at ten distinct samples: the
baseline is the per-axis mean (9/2, 9, 27/2). -/
theorem calibration_mean_deterministic_witness :
    (runSamples ⟨0, 0, 0⟩ (connectBLESuccess initialState) tenSamples).calibration
      = ⟨9/2, 9, 27/2⟩ := by
  have h := calibration_mean_deterministic.1 ⟨0, 0, 0⟩ initialState tenSamples (by rfl)
  rw [h]
  norm_num [tenSamples, REQUIRED_CALIBRATION_SAMPLES, Calibration.mk.injEq]

/-- C2: a raw sample received in calibrating mode with fewer than 10 buffered
calibration samples grows the buffer by exactly one, the mode becomes
tracking exactly when the count reaches 10 (it stays calibrating exactly
while the count is below 10), and at that transition the timeline is
emptied. -/
theorem calibration_transition_exact :
    ∀ (cal : Calibration) (s : TrackerState) (d : RawSample),
      s.mode = .calibrating →
      s.calibrationSamples.length < REQUIRED_CALIBRATION_SAMPLES →
      (handleMotionData cal d s).calibrationSamples.length
          = s.calibrationSamples.length + 1
        ∧ ((handleMotionData cal d s).mode = .tracking
            ↔ (handleMotionData cal d s).calibrationSamples.length
                = REQUIRED_CALIBRATION_SAMPLES)
        ∧ ((handleMotionData cal d s).mode = .calibrating
            ↔ (handleMotionData cal d s).calibrationSamples.length
                < REQUIRED_CALIBRATION_SAMPLES)
        ∧ ((handleMotionData cal d s).mode = .tracking →
            (handleMotionData cal d s).measurements = []) := by
  intro cal s d hmode hlt
  have hdisp : handleMotionData cal d s = handleCalibrationData d s := by
    unfold handleMotionData
    rw [hmode]
  have hlen : (handleCalibrationData d s).calibrationSamples.length
      = s.calibrationSamples.length + 1 := by
    rw [handleCalibrationData_calibrationSamples]
    simp
  rw [hdisp, hlen]
  by_cases hc : s.calibrationSamples.length + 1 = REQUIRED_CALIBRATION_SAMPLES
  · obtain ⟨hm, hms, _⟩ := handleCalibrationData_complete d s hc
    rw [hm]
    refine ⟨rfl, by simp [hc], ?_, fun _ => hms⟩
    constructor
    · intro h
      exact absurd h (by simp)
    · intro h
      omega
  · have hlt' : s.calibrationSamples.length + 1 < REQUIRED_CALIBRATION_SAMPLES := by
      omega
    obtain ⟨hm, _, _⟩ := handleCalibrationData_incomplete d s hlt'
    rw [hm, hmode]
    refine ⟨rfl, ?_, by simp [hlt'], fun h => absurd h (by simp)⟩
    constructor
    · intro h
      exact absurd h (by simp)
    · intro h
      omega

/-- A calibrating state that has already buffered 9 calibration samples. -/
def nineState : TrackerState :=
  { initialState with
      mode := .calibrating
      calibrationSamples := List.replicate 9 mZero
      measurementCount := 9 }

/-- Concrete instantiation of the C2 transition at a state holding 9
calibration samples: the 10th sample moves the session to tracking with an
empty timeline. -/
theorem calibration_transition_exact_witness :
    (handleMotionData ⟨0, 0, 0⟩ ⟨1, 2, 3⟩ nineState).calibrationSamples.length
        = nineState.calibrationSamples.length + 1
      ∧ ((handleMotionData ⟨0, 0, 0⟩ ⟨1, 2, 3⟩ nineState).mode = .tracking
          ↔ (handleMotionData ⟨0, 0, 0⟩ ⟨1, 2, 3⟩ nineState).calibrationSamples.length
              = REQUIRED_CALIBRATION_SAMPLES)
      ∧ ((handleMotionData ⟨0, 0, 0⟩ ⟨1, 2, 3⟩ nineState).mode = .calibrating
          ↔ (handleMotionData ⟨0, 0, 0⟩ ⟨1, 2, 3⟩ nineState).calibrationSamples.length
              < REQUIRED_CALIBRATION_SAMPLES)
      ∧ ((handleMotionData ⟨0, 0, 0⟩ ⟨1, 2, 3⟩ nineState).mode = .tracking →
          (handleMotionData ⟨0, 0, 0⟩ ⟨1, 2, 3⟩ nineState).measurements = []) :=
  calibration_transition_exact ⟨0, 0, 0⟩ nineState ⟨1, 2, 3⟩ rfl
    (by norm_num [nineState, initialState, REQUIRED_CALIBRATION_SAMPLES])

/-- C5 (divergence witness): the listener registered in `connectBLE` closes
over the calibration value of connect time, so in a fresh session (captured
value 0,0,0) feeding 10 calibration samples of (1,2,3) — which set the
session baseline to (1,2,3) — and then the raw sample (4,5,6) appends the
measurement (4,5,6): the handler subtracted the stale captured value, not
the session's computed baseline, which would have given (3,3,3). -/
theorem tracking_subtracts_stale_baseline :
    (runSamples ⟨0, 0, 0⟩ (connectBLESuccess initialState)
        (List.replicate 10 (⟨1, 2, 3⟩ : RawSample) ++ [⟨4, 5, 6⟩])).calibration
        = ⟨1, 2, 3⟩
      ∧ ((runSamples ⟨0, 0, 0⟩ (connectBLESuccess initialState)
          (List.replicate 10 (⟨1, 2, 3⟩ : RawSample) ++ [⟨4, 5, 6⟩])).measurements.map
            fun m => (m.x, m.y, m.z)) = [((4 : ℚ), (5 : ℚ), (6 : ℚ))]
      ∧ ((4 : ℚ), (5 : ℚ), (6 : ℚ)) ≠ ((3 : ℚ), (3 : ℚ), (3 : ℚ)) := by
  refine ⟨?_, ?_, by norm_num⟩ <;>
    norm_num [runSamples, connectBLESuccess, initialState, handleMotionData,
      handleCalibrationData, REQUIRED_CALIBRATION_SAMPLES, SAMPLE_PERIOD,
      List.replicate, Calibration.mk.injEq, Prod.ext_iff]

/-- C3 (divergence witness): in a fresh session the synthetic sample counter
is reset only at connection time, before calibration; the 10 calibration
samples advance it to 10, so the first tracking measurement carries
timestamp 10 × 0.05 = 0.5 rather than 0, and the counter is not reset at
the calibrating-to-tracking transition. -/
theorem first_tracking_timestamp_not_zero :
    ((runSamples ⟨0, 0, 0⟩ (connectBLESuccess initialState)
        (List.replicate 10 (⟨0, 0, 0⟩ : RawSample) ++ [⟨1, 1, 1⟩])).measurements.map
          Measurement.timestamp) = [1/2]
      ∧ (runSamples ⟨0, 0, 0⟩ (connectBLESuccess initialState)
          (List.replicate 10 (⟨0, 0, 0⟩ : RawSample))).measurementCount = 10 := by
  constructor <;>
    norm_num [runSamples, connectBLESuccess, initialState, handleMotionData,
      handleCalibrationData, REQUIRED_CALIBRATION_SAMPLES, SAMPLE_PERIOD,
      List.replicate, Measurement.mk.injEq]

lemma statsFold_eq (ms : List Measurement) :
    ∀ acc : ℝ × ℝ,
      ms.foldl (fun p m => (max p.1 (horizontalDeviation m), p.2 + horizontalDeviation m)) acc
        = ((ms.map horizontalDeviation).foldl max acc.1,
           acc.2 + (ms.map horizontalDeviation).sum) := by
  induction ms with
  | nil => intro acc; simp
  | cons m rest ih =>
      intro acc
      simp only [List.foldl_cons, List.map_cons, List.sum_cons, ih]
      rw [add_assoc]

lemma le_foldl_max (l : List ℝ) : ∀ a : ℝ, a ≤ l.foldl max a := by
  induction l with
  | nil => intro a; simp
  | cons b l ih =>
      intro a
      exact le_trans (le_max_left a b) (ih (max a b))

lemma foldl_max_le (l : List ℝ) : ∀ (a x : ℝ), x ∈ l → x ≤ l.foldl max a := by
  induction l with
  | nil => intro a x hx; simp at hx
  | cons b l ih =>
      intro a x hx
      rcases List.mem_cons.mp hx with h | h
      · rw [h]
        exact le_trans (le_max_right a b) (le_foldl_max l (max a b))
      · exact ih (max a b) x h

lemma foldl_max_mem (l : List ℝ) : ∀ a : ℝ, l.foldl max a = a ∨ l.foldl max a ∈ l := by
  induction l with
  | nil => intro a; left; rfl
  | cons b l ih =>
      intro a
      rcases ih (max a b) with h | h
      · rcases max_choice a b with hab | hab
        · left
          rw [List.foldl_cons, h, hab]
        · right
          rw [List.foldl_cons, h, hab]
          exact List.mem_cons_self b l
      · right
        exact List.mem_cons_of_mem b h

lemma getD_last (ms : List Measurement) (h : ms ≠ []) :
    ms.getD (ms.length - 1) mZero = ms.getLast h := by
  have hn : ms.length - 1 < ms.length := by
    cases ms
    · simp at h
    · simp
  rw [List.getLast_eq_getElem, List.getD_eq_getElem ms mZero hn]

/-- The 2-measurement timeline of the C6 concrete case: deviations (3, 4)
and (0, 0) on the x/z axes, timestamps 0 and 0.05. -/
def statsExample : List Measurement := [⟨3, 0, 4, 0⟩, ⟨0, 0, 0, 1/20⟩]

lemma statsExample_eval : calculateFinalStats statsExample = some ⟨5, 5/2, 1/20, 2⟩ := by
  have h1 : horizontalDeviation ⟨3, 0, 4, 0⟩ = 5 := by
    unfold horizontalDeviation
    rw [show (((3 : ℚ) : ℝ) ^ 2 + ((4 : ℚ) : ℝ) ^ 2) = 5 ^ 2 by norm_num]
    exact Real.sqrt_sq (by norm_num)
  have h2 : horizontalDeviation ⟨0, 0, 0, 1/20⟩ = 0 := by
    unfold horizontalDeviation
    rw [show (((0 : ℚ) : ℝ) ^ 2 + ((0 : ℚ) : ℝ) ^ 2) = 0 by norm_num]
    exact Real.sqrt_zero
  have hmax1 : max (0 : ℝ) 5 = 5 := max_eq_right (by norm_num)
  have hmax2 : max (5 : ℝ) 0 = 5 := max_eq_left (by norm_num)
  unfold calculateFinalStats
  rw [if_neg (by norm_num [statsExample])]
  simp only [statsExample, List.foldl_cons, List.foldl_nil, h1, h2, hmax1, hmax2]
  norm_num [Stats.mk.injEq, List.getD, mZero]

/-- C6: the statistics finalizer on a non-empty timeline reports the maximum
and the arithmetic mean of the per-measurement horizontal deviation
sqrt (x² + z²) (y excluded), the timeline length as sample count and the
last measurement's timestamp as duration; on measurements with (x,z) =
(3,4) and (0,0) it yields max 5, mean 5/2, 2 samples and the last
timestamp. -/
theorem finalStats_correct :
    (∀ (ms : List Measurement) (st : Stats),
        calculateFinalStats ms = some st →
        (∀ m ∈ ms, horizontalDeviation m ≤ st.maxDeviation)
          ∧ st.maxDeviation ∈ ms.map horizontalDeviation
          ∧ st.avgDeviation = (ms.map horizontalDeviation).sum / (ms.length : ℝ)
          ∧ st.samples = ms.length
          ∧ ∃ h : ms ≠ [], st.duration = (ms.getLast h).timestamp)
      ∧ calculateFinalStats statsExample = some ⟨5, 5/2, 1/20, 2⟩ := by
  refine ⟨?_, statsExample_eval⟩
  intro ms st hcs
  have hne : ms ≠ [] := by
    intro h
    rw [h] at hcs
    simp [calculateFinalStats] at hcs
  unfold calculateFinalStats at hcs
  rw [if_neg (by simp [List.length_eq_zero, hne])] at hcs
  simp only [statsFold_eq] at hcs
  have hst := (Option.some_inj.mp hcs).symm
  have hmaxd : st.maxDeviation = (ms.map horizontalDeviation).foldl max 0 := by
    rw [hst]
  have havg : st.avgDeviation = (0 + (ms.map horizontalDeviation).sum) / (ms.length : ℝ) := by
    rw [hst]
  have hsamp : st.samples = ms.length := by
    rw [hst]
  have hdur : st.duration = (ms.getD (ms.length - 1) mZero).timestamp := by
    rw [hst]
  refine ⟨?_, ?_, by rw [havg, zero_add], hsamp, hne, by rw [hdur, getD_last ms hne]⟩
  · intro m hm
    rw [hmaxd]
    exact foldl_max_le _ 0 _ (List.mem_map_of_mem horizontalDeviation hm)
  · rw [hmaxd]
    rcases foldl_max_mem (ms.map horizontalDeviation) 0 with h0 | hmem
    · rcases List.exists_mem_of_ne_nil ms hne with ⟨m0, hm0⟩
      have hle : horizontalDeviation m0 ≤ 0 := by
        rw [← h0]
        exact foldl_max_le _ 0 _ (List.mem_map_of_mem horizontalDeviation hm0)
      have hge : 0 ≤ horizontalDeviation m0 := Real.sqrt_nonneg _
      have hz : horizontalDeviation m0 = 0 := le_antisymm hle hge
      rw [h0, ← hz]
      exact List.mem_map_of_mem horizontalDeviation hm0
    · exact hmem

/-- Concrete instantiation of the C6 statistics at the 2-measurement
example: the reported maximum 5 occurs among the horizontal deviations and
the sample count is the timeline length. -/
theorem finalStats_correct_witness :
    (5 : ℝ) ∈ statsExample.map horizontalDeviation ∧ (2 : ℕ) = statsExample.length :=
  ⟨(finalStats_correct.1 statsExample ⟨5, 5/2, 1/20, 2⟩ finalStats_correct.2).2.1,
   (finalStats_correct.1 statsExample ⟨5, 5/2, 1/20, 2⟩ finalStats_correct.2).2.2.2.1⟩
